import Mathlib

/-!
Verification of the dit feed-to-chat bridge (src/main.rs).

Shallow embedding of the Rust program in `src/main.rs`: a loop that
(1) fetches chat updates, interprets `/subscribe` / `/unsubscribe`
commands against a subscriber table and advances a persisted offset, and
(2) fetches the latest feed submissions, deduplicates them against an
in-memory marker of base36-decoded ids, filters them by keywords, and
fans matching items out to all subscribers.

Rust strings are modelled as `List Char`; Rust `Vec<u8>` as `List Nat`
(each entry a byte value); fallible operations as `Except Unit` /
`Option`; the external fetches as explicit inputs to each cycle.
-/

namespace Dit

/-- Rust `String` / `&str`, modelled as its character sequence. -/
abbrev RStr := List Char

/-- Rust `str::to_lowercase` (ASCII-relevant part, matching the
characters that occur in this program's data). -/
def strToLower (s : RStr) : RStr := s.map Char.toLower

/-- `hay` starts with `pre` (helper for Rust `str::contains`). -/
def beginsWith : RStr → RStr → Bool
  | _, [] => true
  | [], _ :: _ => false
  | h :: hs, p :: ps => h == p && beginsWith hs ps

/-- Rust `str::contains(needle)`: `needle` occurs as a contiguous
substring of `hay`. -/
def containsSub : RStr → RStr → Bool
  | [], needle => beginsWith [] needle
  | h :: t, needle => beginsWith (h :: t) needle || containsSub t needle

/-- `fn contains_any(s: &str, keywords: Vec<&str>) -> bool` from
src/main.rs: some keyword, case-folded, is a substring of the
case-folded text. -/
def contains_any (s : RStr) (keywords : List RStr) : Bool :=
  keywords.any fun keyword => containsSub (strToLower s) (strToLower keyword)

/-- `roux::submission::SubmissionData`, restricted to the fields the
program reads. -/
structure SubmissionData where
  id : RStr
  title : RStr
  selftext : RStr
  url : Option RStr
deriving DecidableEq

/-- `fn sub_matches(sub, keywords) -> bool` from src/main.rs: the
lowercased title or the selftext matches some keyword. -/
def sub_matches (sub : SubmissionData) (keywords : List RStr) : Bool :=
  let title := strToLower sub.title
  contains_any title keywords || contains_any sub.selftext keywords

/-- Value of one base36 digit (`0`-`9`, `a`-`z`, case-insensitive),
`none` on a character outside the alphabet. -/
def base36DigitVal (c : Char) : Option Nat :=
  let c := c.toLower
  if '0' ≤ c ∧ c ≤ '9' then some (c.toNat - '0'.toNat)
  else if 'a' ≤ c ∧ c ≤ 'z' then some (c.toNat - 'a'.toNat + 10)
  else none

/-- Numeric value of a base36 string (invalid digits contribute 0; only
used under the all-digits-valid guard of `base36decode`). -/
def base36Val (s : RStr) : Nat :=
  s.foldl (fun a c => a * 36 + (base36DigitVal c).getD 0) 0

/-- Big-endian minimal byte representation of `n` (fuel-driven; the
first argument is fuel, always instantiated with `n` itself, which
bounds the number of base-256 digits). -/
def natToBytesAux : Nat → Nat → List Nat
  | 0, _ => []
  | fuel + 1, n => if n = 0 then [] else natToBytesAux fuel (n / 256) ++ [n % 256]

/-- Big-endian minimal byte representation of a natural number
(`[]` for 0). -/
def natToBytes (n : Nat) : List Nat := natToBytesAux n n

/-- Number of leading `0` digits of a base36 string (the `base-x`
decoder turns each into a leading zero byte). -/
def countLeadingZeros : RStr → Nat
  | [] => 0
  | c :: t => if c.toLower = '0' then countLeadingZeros t + 1 else 0

/-- `base36::decode`: decode a base36 string to the big-endian byte
sequence of its value, one leading zero byte per leading `0` digit;
errors (here `none`) on a character outside the base36 alphabet. -/
def base36decode (s : RStr) : Option (List Nat) :=
  if s.all fun c => (base36DigitVal c).isSome then
    some (List.replicate (countLeadingZeros s) 0 ++ natToBytes (base36Val s))
  else none

/-- Rust `Ord` on `Vec<u8>`: lexicographic comparison, a strict prefix
is smaller. -/
def bytesCmp : List Nat → List Nat → Ordering
  | [], [] => .eq
  | [], _ :: _ => .lt
  | _ :: _, [] => .gt
  | a :: as, b :: bs => if a < b then .lt else if b < a then .gt else bytesCmp as bs

/-- Rust `Iterator::max` under `bytesCmp` (keeps the later of two equal
maxima, like Rust). -/
def listMax (l : List (List Nat)) : Option (List Nat) :=
  l.foldl (fun acc x =>
    match acc with
    | none => some x
    | some m => if bytesCmp x m == Ordering.lt then some m else some x) none

/-- The submission filter of the feed branch of `main`'s loop
(src/main.rs lines 61-70): the decoded id (empty bytes if decoding
fails) must exceed the previous marker — or the marker is absent — and
the submission must match the keywords. -/
def feedFilter (lastId : Option (List Nat)) (keywords : List RStr)
    (s : SubmissionData) : Bool :=
  let id := (base36decode s.id).getD []
  let m := match lastId with
    | some last => bytesCmp id last == Ordering.gt
    | none => true
  m && sub_matches s keywords

/-- Outcome of the feed branch on a successfully fetched batch. -/
structure PollResult where
  emitted : List SubmissionData
  newMarker : Option (List Nat)
deriving DecidableEq

/-- One successful poll cycle of the feed branch (src/main.rs lines
58-99): emit the submissions passing `feedFilter`, and overwrite
`last_reddit_id` with the maximum decodable id of the whole batch. -/
def pollCycle (lastId : Option (List Nat)) (keywords : List RStr)
    (batch : List SubmissionData) : PollResult :=
  { emitted := batch.filter (feedFilter lastId keywords)
    newMarker := listMax (batch.filterMap fun s => base36decode s.id) }

/-- A Telegram message, restricted to the fields the program reads. -/
structure Message where
  chat_id : Int
  text : Option RStr
deriving DecidableEq

/-- `frankenstein::UpdateContent`, collapsed to the two cases the
program distinguishes. -/
inductive UpdateContent where
  | message (m : Message)
  | other
deriving DecidableEq

/-- A Telegram update. -/
structure Update where
  update_id : Int
  content : UpdateContent
deriving DecidableEq

/-- The `subscribers` database table, as its list of rows.

Modelled from the spec: the repository's `migrations/` directory (used
by `sqlx::migrate!`) is not under src/, so the table schema is taken
from the spec's data model — the Subscriber Registry is a set of
integer chat ids with no further constraints; the table is a bare row
list and the observable registry is the set of its rows. -/
abbrev SubTable := List Int

/-- `fn get_subscribers` from src/main.rs: collect the rows of the
`subscribers` table into a `HashSet<i64>`. -/
def get_subscribers (table : SubTable) : Finset Int := table.toFinset

/-- `fn add_subscriber` from src/main.rs: a plain `INSERT` of the row
(no uniqueness clause). `ok` is whether the database write succeeds;
on failure the error propagates (`?`). -/
def add_subscriber (ok : Bool) (table : SubTable) (chat_id : Int) :
    Except Unit SubTable :=
  if ok then .ok (table ++ [chat_id]) else .error ()

/-- `fn remove_subscriber` from src/main.rs: `DELETE` of every row with
this chat id. `ok` is whether the database write succeeds. -/
def remove_subscriber (ok : Bool) (table : SubTable) (chat_id : Int) :
    Except Unit SubTable :=
  if ok then .ok (table.filter fun c => c != chat_id) else .error ()

/-- The literal command and acknowledgement strings of src/main.rs. -/
def subscribeText : RStr := "/subscribe".toList

def unsubscribeText : RStr := "/unsubscribe".toList

def subscribedAck : RStr := "Subscribed to mechmarket".toList

def unsubscribedAck : RStr := "Unsubscribed from mechmarket".toList

deriving instance DecidableEq for Except

/-- Result of `handle_requests`: the subscriber table and the sent
acknowledgements reflect the database/API side effects that happened
before the function returned or aborted; `result` is its return value
(`.error` models a propagated `anyhow` error). -/
structure ChatOutcome where
  table : SubTable
  sent : List (Int × RStr)
  result : Except Unit Int
deriving DecidableEq

/-- The `for update in response.result` loop of `handle_requests`
(src/main.rs lines 183-206). `schedule k` tells whether the `k`-th
registry write of this batch succeeds; a failed write aborts the loop,
keeping the side effects made so far. Sends (`let _ = …`) never abort. -/
def handleLoop (schedule : Nat → Bool) :
    List Update → SubTable → List (Int × RStr) → Nat → Int → ChatOutcome
  | [], table, sent, _, off => ⟨table, sent, .ok off⟩
  | u :: rest, table, sent, writes, _off =>
    match u.content with
    | .message m =>
      match m.text with
      | some text =>
        if text = subscribeText then
          match add_subscriber (schedule writes) table m.chat_id with
          | .ok table2 =>
            handleLoop schedule rest table2 (sent ++ [(m.chat_id, subscribedAck)])
              (writes + 1) (u.update_id + 1)
          | .error _ => ⟨table, sent, .error ()⟩
        else if text = unsubscribeText then
          match remove_subscriber (schedule writes) table m.chat_id with
          | .ok table2 =>
            handleLoop schedule rest table2 (sent ++ [(m.chat_id, unsubscribedAck)])
              (writes + 1) (u.update_id + 1)
          | .error _ => ⟨table, sent, .error ()⟩
        else handleLoop schedule rest table sent writes (u.update_id + 1)
      | none => handleLoop schedule rest table sent writes (u.update_id + 1)
    | .other => handleLoop schedule rest table sent writes (u.update_id + 1)

/-- `fn handle_requests` from src/main.rs: on a fetch failure
(`if let Ok(response)` falls through) it returns the input offset as a
success; otherwise it runs the update loop starting from the input
offset. -/
def handle_requests (schedule : Nat → Bool) (fetch : Except Unit (List Update))
    (table : SubTable) (offset : Int) : ChatOutcome :=
  match fetch with
  | .error _ => ⟨table, [], .ok offset⟩
  | .ok updates => handleLoop schedule updates table [] 0 offset

/-- The `settings` key-value table backing `fn get` / `fn set`. -/
abbrev Settings := List (RStr × RStr)

/-- `fn get` from src/main.rs: the stored value, or the default when
the key is absent. -/
def dbGet (settings : Settings) (key dflt : RStr) : RStr :=
  (settings.lookup key).getD dflt

/-- `fn set` from src/main.rs: upsert
(`INSERT … ON CONFLICT (key) DO UPDATE`). -/
def dbSet (settings : Settings) (key value : RStr) : Settings :=
  if (settings.lookup key).isSome then
    settings.map fun kv => if kv.1 = key then (key, value) else kv
  else settings ++ [(key, value)]

/-- The settings key of the chat offset. -/
def offsetKey : RStr := "offset".toList

/-- The default string returned for an absent offset. -/
def zeroDflt : RStr := "0".toList

/-- Decimal digits of `n`, most significant first (fuel-driven, like
`natToBytesAux`; `[]` for 0). -/
def natToDigits : Nat → Nat → RStr
  | 0, _ => []
  | fuel + 1, n => if n = 0 then [] else natToDigits fuel (n / 10) ++ [Char.ofNat (48 + n % 10)]

/-- Rust `u64`-magnitude decimal printing: `"0"` for 0, no leading
zeros otherwise. -/
def natToRStr (n : Nat) : RStr := if n = 0 then ['0'] else natToDigits n n

/-- Rust `i64::to_string`. -/
def intToRStr (i : Int) : RStr :=
  if i < 0 then '-' :: natToRStr i.natAbs else natToRStr i.natAbs

/-- Value of one decimal digit character. -/
def digitVal? (c : Char) : Option Nat :=
  if '0' ≤ c ∧ c ≤ '9' then some (c.toNat - '0'.toNat) else none

/-- Decimal parse of an unsigned number: all characters must be digits
and there must be at least one. -/
def parseNat? (s : RStr) : Option Nat :=
  if s ≠ [] ∧ s.all fun c => (digitVal? c).isSome then
    some (s.foldl (fun a c => a * 10 + (digitVal? c).getD 0) 0)
  else none

/-- Rust `str::parse::<i64>` (overflow aside): an optional leading
minus sign followed by decimal digits. -/
def parseI64 (s : RStr) : Option Int :=
  match s with
  | [] => none
  | c :: rest =>
    if c = '-' then (parseNat? rest).map fun (n : Nat) => -(n : Int)
    else (parseNat? (c :: rest)).map fun (n : Nat) => (n : Int)

/-- Startup read of the chat offset (src/main.rs lines 41-43):
`get(pool, "offset", "0").parse::<i64>()`; `none` models a parse
failure, which aborts startup. -/
def startupOffset (settings : Settings) : Option Int :=
  parseI64 (dbGet settings offsetKey zeroDflt)

/-- Startup value of the dedup marker (src/main.rs line 44):
`let mut last_reddit_id: Option<Vec<u8>> = None` — nothing is read
from the store. -/
def startupMarker (_settings : Settings) : Option (List Nat) := none

/-- The in-memory and persisted state carried across loop iterations. -/
structure LoopState where
  settings : Settings
  table : SubTable
  offset : Int
  lastRedditId : Option (List Nat)
deriving DecidableEq

/-- The chat half of one loop iteration (src/main.rs lines 46-56): on
success the offset is updated in memory and persisted under key
`"offset"`; on error only the side effects already made remain, and
the offset is neither updated nor persisted. Returns the sent
acknowledgements. -/
def chatCycle (schedule : Nat → Bool) (fetch : Except Unit (List Update))
    (st : LoopState) : LoopState × List (Int × RStr) :=
  let out := handle_requests schedule fetch st.table st.offset
  match out.result with
  | .ok newOffset =>
    ({ settings := dbSet st.settings offsetKey (intToRStr newOffset)
       table := out.table
       offset := newOffset
       lastRedditId := st.lastRedditId }, out.sent)
  | .error _ => ({ st with table := out.table }, out.sent)

/-- The message composed for a matched submission (src/main.rs lines
89-92): the title, then — when a url is present — a line break and the
url. -/
def composeMessage (s : SubmissionData) : RStr :=
  s.title ++ (match s.url with
    | some url => '\n' :: url
    | none => [])

/-- The fan-out of one submission to the current subscribers
(src/main.rs lines 88-98); send results are discarded (`let _ = …`). -/
def fanOut (subscribers : List Int) (s : SubmissionData) : List (Int × RStr) :=
  subscribers.map fun chat_id => (chat_id, composeMessage s)

/-- The feed half of one loop iteration (src/main.rs lines 58-104): a
fetch error only logs; on success, emit the filtered submissions,
overwrite the marker with the batch maximum, and fan each emitted
submission out to the subscriber set (`HashSet` iteration modelled as
the deduplicated row list). Returns the fanned-out sends. -/
def feedCycle (keywords : List RStr) (fetch : Except Unit (List SubmissionData))
    (st : LoopState) : LoopState × List (Int × RStr) :=
  match fetch with
  | .error _ => (st, [])
  | .ok batch =>
    let r := pollCycle st.lastRedditId keywords batch
    ({ st with lastRedditId := r.newMarker },
      r.emitted.flatMap (fanOut st.table.dedup))

/-- One full iteration of `main`'s loop: the chat half, then the feed
half. Returns the new state, the chat acknowledgements and the feed
sends. -/
def loopCycle (schedule : Nat → Bool) (chatFetch : Except Unit (List Update))
    (keywords : List RStr) (feedFetch : Except Unit (List SubmissionData))
    (st : LoopState) : LoopState × List (Int × RStr) × List (Int × RStr) :=
  let c := chatCycle schedule chatFetch st
  let f := feedCycle keywords feedFetch c.1
  (f.1, c.2, f.2)

/-- Spec-side view of an update (for refinement statements): the
subscribe (`true`) / unsubscribe (`false`) command it carries, if any. -/
def commandOf (u : Update) : Option (Bool × Int) :=
  match u.content with
  | .message m =>
    match m.text with
    | some text =>
      if text = subscribeText then some (true, m.chat_id)
      else if text = unsubscribeText then some (false, m.chat_id)
      else none
    | none => none
  | .other => none

/-- Spec-side effect of one command on the registry table. -/
def applyCommand (table : SubTable) : Bool × Int → SubTable
  | (true, c) => table ++ [c]
  | (false, c) => table.filter fun x => x != c

/-- Spec-side registry after a batch: the commands applied in batch
order. -/
def registrySpec (table : SubTable) (updates : List Update) : SubTable :=
  (updates.filterMap commandOf).foldl applyCommand table

/-- Spec-side acknowledgements of a batch: one fixed acknowledgement
per command, to that command's chat id, in batch order. -/
def acksSpec (updates : List Update) : List (Int × RStr) :=
  (updates.filterMap commandOf).map fun cmd =>
    (cmd.2, if cmd.1 then subscribedAck else unsubscribedAck)

/-- Spec-side returned offset: last update id + 1, or the input offset
for an empty batch. -/
def offsetSpec (offset : Int) (updates : List Update) : Int :=
  match updates.getLast? with
  | none => offset
  | some u => u.update_id + 1

/-- Number of registry writes a list of updates triggers. -/
def writeCount (updates : List Update) : Nat :=
  (updates.filterMap commandOf).length

/-- The failure schedule on which every database write succeeds. -/
def allOk : Nat → Bool := fun _ => true

/-- Spec-side keyword match of a submission (the spec's words): some
case-folded keyword is a substring of the case-folded title or of the
case-folded body. -/
def keywordMatchSpec (keywords : List RStr) (s : SubmissionData) : Bool :=
  keywords.any fun k =>
    containsSub (strToLower s.title) (strToLower k) ||
    containsSub (strToLower s.selftext) (strToLower k)

/-- Value of a big-endian byte sequence as an unsigned integer (the
spec's reading of the id ordering). -/
def bytesToNat (l : List Nat) : Nat := l.foldl (fun a b => a * 256 + b) 0

/-! Concrete fixtures for counterexamples and witnesses. -/

/-- The spec's scenario keyword set. -/
def kwWts : List RStr := ["wts".toList]

/-- Scenario submission id "3", title "WTS keyboard". -/
def subWts3 : SubmissionData := ⟨"3".toList, "WTS keyboard".toList, [], none⟩

/-- Scenario submission id "5", title "random". -/
def subRandom5 : SubmissionData := ⟨"5".toList, "random".toList, [], none⟩

/-- A matching submission with id "5". -/
def subWts5 : SubmissionData := ⟨"5".toList, "wts".toList, [], none⟩

/-- A matching submission with id "100" (base36 value 1296). -/
def subWts100 : SubmissionData := ⟨"100".toList, "wts".toList, [], none⟩

/-- A `/subscribe` update from chat 42 with update id 10. -/
def u42 : Update := ⟨10, .message ⟨42, some subscribeText⟩⟩

/-- A `/subscribe` update from chat 43 with update id 11. -/
def u43 : Update := ⟨11, .message ⟨43, some subscribeText⟩⟩

/-- A loop state with empty store and tables, offset 0, no marker. -/
def stEmpty : LoopState := ⟨[], [], 0, none⟩

/-- A loop state whose in-memory marker is the byte sequence `[9]`. -/
def stMarker9 : LoopState := ⟨[], [], 0, some [9]⟩

/-- A loop state at offset 10. -/
def stOff10 : LoopState := ⟨[], [], 10, none⟩

/-- A failure schedule on which only the first write succeeds. -/
def schedFail1 : Nat → Bool := fun k => k == 0

/-- A loop state at offset 10 whose in-memory marker is `[3]`. -/
def stM3 : LoopState := ⟨[], [], 10, some [3]⟩

/-! ## Helper lemmas -/

theorem bytesCmp_refl (a : List Nat) : bytesCmp a a = Ordering.eq := by
  induction a with
  | nil => rfl
  | cons x xs ih => simp [bytesCmp, ih]

theorem bytesCmp_swap (a b : List Nat) : bytesCmp b a = (bytesCmp a b).swap := by
  induction a generalizing b with
  | nil => cases b <;> rfl
  | cons x xs ih =>
    cases b with
    | nil => rfl
    | cons y ys =>
      simp only [bytesCmp]
      split_ifs <;> first | rfl | omega | exact ih ys

theorem bytesCmp_le_trans {a b c : List Nat} (h1 : bytesCmp a b ≠ .gt)
    (h2 : bytesCmp b c ≠ .gt) : bytesCmp a c ≠ .gt := by
  induction a generalizing b c with
  | nil => cases c <;> simp [bytesCmp]
  | cons x xs ih =>
    cases b with
    | nil => simp [bytesCmp] at h1
    | cons y ys =>
      cases c with
      | nil => simp [bytesCmp] at h2
      | cons z zs =>
        simp only [bytesCmp] at h1 h2 ⊢
        split_ifs at h1 h2 ⊢
        all_goals try exact (h1 rfl).elim
        all_goals try exact (h2 rfl).elim
        all_goals try omega
        all_goals try simp
        all_goals exact ih h1 h2

theorem listMax_go (l : List (List Nat)) (m : List Nat) :
    ∃ mx, l.foldl (fun acc x =>
        match acc with
        | none => some x
        | some m2 => if bytesCmp x m2 == Ordering.lt then some m2 else some x) (some m) =
          some mx ∧
      (mx = m ∨ mx ∈ l) ∧ bytesCmp m mx ≠ .gt ∧ ∀ x ∈ l, bytesCmp x mx ≠ .gt := by
  induction l generalizing m with
  | nil => exact ⟨m, rfl, .inl rfl, by simp [bytesCmp_refl], by simp⟩
  | cons x xs ih =>
    simp only [List.foldl_cons]
    by_cases h : bytesCmp x m = .lt
    · rw [show ((bytesCmp x m == Ordering.lt) = true) from by rw [h]; rfl, if_pos rfl]
      obtain ⟨mx, hfold, hmem, hm, hall⟩ := ih m
      refine ⟨mx, by simpa using hfold, ?_, hm, ?_⟩
      · rcases hmem with h1 | h1
        · exact .inl h1
        · exact .inr (List.mem_cons_of_mem _ h1)
      · intro y hy
        rcases List.mem_cons.mp hy with rfl | h1
        · exact bytesCmp_le_trans (by simp [h]) hm
        · exact hall y h1
    · have hbeq : (bytesCmp x m == Ordering.lt) = false := by
        cases hcmp : bytesCmp x m
        · exact absurd hcmp h
        · rfl
        · rfl
      rw [hbeq, if_neg (by simp)]
      obtain ⟨mx, hfold, hmem, hm, hall⟩ := ih x
      have hxm : bytesCmp m x ≠ .gt := by
        intro hgt
        have hs := bytesCmp_swap x m
        rw [hgt] at hs
        cases hcmp : bytesCmp x m <;> rw [hcmp] at hs
        · exact h hcmp
        · exact absurd hs (by decide)
        · exact absurd hs (by decide)
      have hmx : bytesCmp m mx ≠ .gt := bytesCmp_le_trans hxm hm
      refine ⟨mx, by simpa using hfold, ?_, hmx, ?_⟩
      · rcases hmem with h1 | h1
        · exact .inr (by simp [h1])
        · exact .inr (List.mem_cons_of_mem _ h1)
      · intro y hy
        rcases List.mem_cons.mp hy with rfl | h1
        · exact hm
        · exact hall y h1

theorem listMax_spec (l : List (List Nat)) (h : l ≠ []) :
    ∃ mx, listMax l = some mx ∧ mx ∈ l ∧ ∀ x ∈ l, bytesCmp x mx ≠ .gt := by
  cases l with
  | nil => exact absurd rfl h
  | cons x xs =>
    obtain ⟨mx, hfold, hmem, hm, hall⟩ := listMax_go xs x
    refine ⟨mx, ?_, ?_, ?_⟩
    · simpa [listMax] using hfold
    · rcases hmem with h1 | h1
      · simp [h1]
      · exact List.mem_cons_of_mem _ h1
    · intro y hy
      rcases List.mem_cons.mp hy with rfl | h1
      · exact hm
      · exact hall y h1

theorem char_ofNat_toNat_lower (n : Nat) (h1 : 97 ≤ n) (h2 : n ≤ 122) :
    (Char.ofNat n).toNat = n := by
  interval_cases n <;> decide

theorem char_toLower_idem (c : Char) : c.toLower.toLower = c.toLower := by
  have hdef : ∀ d : Char,
      d.toLower = if d.toNat ≥ 65 ∧ d.toNat ≤ 90 then Char.ofNat (d.toNat + 32) else d :=
    fun _ => rfl
  by_cases h : c.toNat ≥ 65 ∧ c.toNat ≤ 90
  · rw [hdef c, if_pos h]
    have hv : (Char.ofNat (c.toNat + 32)).toNat = c.toNat + 32 :=
      char_ofNat_toNat_lower _ (by omega) (by omega)
    rw [hdef (Char.ofNat (c.toNat + 32)), if_neg (by rw [hv]; omega)]
  · rw [hdef c, if_neg h, hdef c, if_neg h]

theorem strToLower_idem (s : RStr) : strToLower (strToLower s) = strToLower s := by
  simp [strToLower, List.map_map, Function.comp_def, char_toLower_idem]

theorem any_or_distrib {α : Type} (l : List α) (p q : α → Bool) :
    (l.any fun a => p a || q a) = (l.any p || l.any q) := by
  induction l with
  | nil => rfl
  | cons x t ih =>
    simp only [List.any_cons, ih]
    cases p x <;> cases q x <;> simp

theorem sub_matches_eq_spec (s : SubmissionData) (keywords : List RStr) :
    sub_matches s keywords = keywordMatchSpec keywords s := by
  simp only [sub_matches, keywordMatchSpec, contains_any, strToLower_idem, any_or_distrib]

theorem lookup_map_upd (key value : RStr) (settings : Settings)
    (h : (settings.lookup key).isSome) :
    ((settings.map fun kv => if kv.1 = key then (key, value) else kv).lookup key) =
      some value := by
  induction settings with
  | nil => simp [List.lookup] at h
  | cons kv t ih =>
    by_cases hk : kv.1 = key
    · rw [List.map_cons, if_pos hk]
      simp [List.lookup]
    · have hne : (key == kv.1) = false := by
        simp only [beq_eq_false_iff_ne, ne_eq]
        exact fun e => hk e.symm
      simp only [List.lookup, hne] at h
      rw [List.map_cons, if_neg hk]
      simp only [List.lookup, hne]
      exact ih h

theorem lookup_append_absent (key value : RStr) (settings : Settings)
    (h : settings.lookup key = none) :
    ((settings ++ [(key, value)]).lookup key) = some value := by
  induction settings with
  | nil => simp [List.lookup]
  | cons kv t ih =>
    by_cases hk : key == kv.1
    · simp [List.lookup, hk] at h
    · have hne : (key == kv.1) = false := by simpa using hk
      simp only [List.lookup, hne] at h
      simp only [List.cons_append, List.lookup, hne]
      exact ih h

theorem lookup_dbSet (settings : Settings) (key value : RStr) :
    (dbSet settings key value).lookup key = some value := by
  unfold dbSet
  split_ifs with h
  · exact lookup_map_upd key value settings h
  · cases hl : settings.lookup key with
    | none => exact lookup_append_absent key value settings hl
    | some v => simp [hl] at h

theorem dbGet_dbSet (settings : Settings) (key value dflt : RStr) :
    dbGet (dbSet settings key value) key dflt = value := by
  unfold dbGet
  rw [lookup_dbSet]
  rfl

theorem digitVal_ofNat (r : Nat) (h : r < 10) :
    digitVal? (Char.ofNat (48 + r)) = some r := by
  interval_cases r <;> decide

theorem natToDigits_zero (fuel : Nat) : natToDigits fuel 0 = [] := by
  cases fuel <;> simp [natToDigits]

theorem natToDigits_all_digits (fuel n : Nat) :
    ∀ c ∈ natToDigits fuel n, (digitVal? c).isSome := by
  induction fuel generalizing n with
  | zero => simp [natToDigits]
  | succ fuel ih =>
    by_cases h : n = 0
    · simp [natToDigits, h]
    · simp only [natToDigits, if_neg h]
      intro c hc
      rcases List.mem_append.mp hc with h1 | h2
      · exact ih (n / 10) c h1
      · have hc2 : c = Char.ofNat (48 + n % 10) := by simpa using h2
        rw [hc2, digitVal_ofNat _ (Nat.mod_lt _ (by omega))]
        rfl

theorem natToDigits_foldl (fuel n : Nat) (hn : n ≠ 0) (hfuel : n ≤ fuel) (init : Nat) :
    (natToDigits fuel n).foldl (fun a c => a * 10 + (digitVal? c).getD 0) init =
      init * 10 ^ (natToDigits fuel n).length + n := by
  induction fuel generalizing n init with
  | zero => exact absurd (by omega : n = 0) hn
  | succ fuel ih =>
    simp only [natToDigits, if_neg hn]
    rw [List.foldl_append]
    by_cases h10 : n / 10 = 0
    · rw [h10, natToDigits_zero]
      simp only [List.foldl_nil, List.nil_append, List.foldl_cons,
        List.length_cons, List.length_nil]
      rw [digitVal_ofNat _ (Nat.mod_lt _ (by omega))]
      simp only [Option.getD_some, pow_one]
      omega
    · have hle : n / 10 ≤ fuel := by omega
      rw [ih (n / 10) h10 hle init]
      simp only [List.foldl_cons, List.foldl_nil, List.length_append,
        List.length_cons, List.length_nil]
      rw [digitVal_ofNat _ (Nat.mod_lt _ (by omega))]
      simp only [Option.getD_some]
      have hpow : 10 ^ ((natToDigits fuel (n / 10)).length + 1) =
          10 ^ (natToDigits fuel (n / 10)).length * 10 := pow_succ 10 _
      have hdm : n / 10 * 10 + n % 10 = n := by omega
      rw [hpow]
      ring_nf
      omega

theorem natToDigits_ne_nil (fuel n : Nat) (hn : n ≠ 0) (hfuel : n ≤ fuel) :
    natToDigits fuel n ≠ [] := by
  cases fuel with
  | zero => omega
  | succ fuel => simp [natToDigits, hn]

theorem parseNat_natToRStr (n : Nat) : parseNat? (natToRStr n) = some n := by
  by_cases h : n = 0
  · subst h; decide
  · unfold natToRStr
    rw [if_neg h]
    unfold parseNat?
    have hall : (natToDigits n n).all (fun c => (digitVal? c).isSome) = true := by
      rw [List.all_eq_true]
      exact fun c hc => natToDigits_all_digits n n c hc
    rw [if_pos ⟨natToDigits_ne_nil n n h le_rfl, hall⟩]
    rw [natToDigits_foldl n n h le_rfl 0]
    simp

theorem natToRStr_all_digits (n : Nat) :
    ∀ c ∈ natToRStr n, (digitVal? c).isSome := by
  unfold natToRStr
  split_ifs with h
  · intro c hc
    have : c = '0' := by simpa using hc
    subst this
    decide
  · exact natToDigits_all_digits n n

theorem natToRStr_ne_nil (n : Nat) : natToRStr n ≠ [] := by
  unfold natToRStr
  split_ifs with h
  · decide
  · exact natToDigits_ne_nil n n h le_rfl

theorem parseI64_intToRStr (i : Int) : parseI64 (intToRStr i) = some i := by
  have habs : 0 ≤ i → ((i.natAbs : Int)) = i := fun h => by omega
  have habsneg : i < 0 → (-(i.natAbs : Int)) = i := fun h => by omega
  unfold intToRStr
  split_ifs with hneg
  · show parseI64 ('-' :: natToRStr i.natAbs) = some i
    simp only [parseI64, if_pos rfl]
    rw [parseNat_natToRStr]
    simp only [Option.map_some']
    rw [habsneg hneg]
    simp
  · cases hL : natToRStr i.natAbs with
    | nil => exact absurd hL (natToRStr_ne_nil _)
    | cons c t =>
      have hdig : (digitVal? c).isSome := by
        apply natToRStr_all_digits i.natAbs
        rw [hL]
        simp
      have hc : c ≠ '-' := by
        intro e
        rw [e] at hdig
        simp [digitVal?] at hdig
      simp only [parseI64, if_neg hc]
      rw [← hL, parseNat_natToRStr]
      simp only [Option.map_some']
      rw [habs (by omega)]

theorem handleLoop_cons_none (schedule : Nat → Bool) (u : Update) (rest : List Update)
    (table : SubTable) (sent : List (Int × RStr)) (writes : Nat) (off : Int)
    (h : commandOf u = none) :
    handleLoop schedule (u :: rest) table sent writes off =
      handleLoop schedule rest table sent writes (u.update_id + 1) := by
  cases hc : u.content with
  | other => simp [handleLoop, hc]
  | message m =>
    cases ht : m.text with
    | none => simp [handleLoop, hc, ht]
    | some text =>
      simp only [commandOf, hc, ht] at h
      by_cases h1 : text = subscribeText
      · rw [if_pos h1] at h; cases h
      · by_cases h2 : text = unsubscribeText
        · rw [if_neg h1, if_pos h2] at h; cases h
        · simp [handleLoop, hc, ht, if_neg h1, if_neg h2]

theorem handleLoop_cons_sub (schedule : Nat → Bool) (u : Update) (rest : List Update)
    (table : SubTable) (sent : List (Int × RStr)) (writes : Nat) (off : Int) (c : Int)
    (h : commandOf u = some (true, c)) :
    handleLoop schedule (u :: rest) table sent writes off =
      if schedule writes then
        handleLoop schedule rest (table ++ [c]) (sent ++ [(c, subscribedAck)])
          (writes + 1) (u.update_id + 1)
      else ⟨table, sent, .error ()⟩ := by
  cases hc : u.content with
  | other => simp only [commandOf, hc] at h; exact Option.noConfusion h
  | message m =>
    cases ht : m.text with
    | none => simp only [commandOf, hc, ht] at h; exact Option.noConfusion h
    | some text =>
      simp only [commandOf, hc, ht] at h
      by_cases h1 : text = subscribeText
      · rw [if_pos h1] at h
        have hcc : m.chat_id = c := by
          have := Option.some.inj h
          exact (Prod.mk.injEq _ _ _ _).mp this |>.2
        subst hcc
        cases hw : schedule writes <;>
          simp [handleLoop, hc, ht, h1, add_subscriber, hw]
      · by_cases h2 : text = unsubscribeText
        · rw [if_neg h1, if_pos h2] at h
          have := Option.some.inj h
          cases ((Prod.mk.injEq _ _ _ _).mp this).1
        · rw [if_neg h1, if_neg h2] at h; cases h

theorem handleLoop_cons_unsub (schedule : Nat → Bool) (u : Update) (rest : List Update)
    (table : SubTable) (sent : List (Int × RStr)) (writes : Nat) (off : Int) (c : Int)
    (h : commandOf u = some (false, c)) :
    handleLoop schedule (u :: rest) table sent writes off =
      if schedule writes then
        handleLoop schedule rest (table.filter fun x => x != c)
          (sent ++ [(c, unsubscribedAck)]) (writes + 1) (u.update_id + 1)
      else ⟨table, sent, .error ()⟩ := by
  cases hc : u.content with
  | other => simp only [commandOf, hc] at h; exact Option.noConfusion h
  | message m =>
    cases ht : m.text with
    | none => simp only [commandOf, hc, ht] at h; exact Option.noConfusion h
    | some text =>
      simp only [commandOf, hc, ht] at h
      by_cases h1 : text = subscribeText
      · rw [if_pos h1] at h
        have := Option.some.inj h
        cases ((Prod.mk.injEq _ _ _ _).mp this).1
      · by_cases h2 : text = unsubscribeText
        · rw [if_neg h1, if_pos h2] at h
          have hcc : m.chat_id = c := by
            have := Option.some.inj h
            exact (Prod.mk.injEq _ _ _ _).mp this |>.2
          subst hcc
          subst h2
          have hns : ¬ (unsubscribeText = subscribeText) := by decide
          cases hw : schedule writes <;>
            simp [handleLoop, hc, ht, if_neg hns, remove_subscriber, hw]
        · rw [if_neg h1, if_neg h2] at h; cases h

theorem registrySpec_nil (table : SubTable) : registrySpec table [] = table := rfl

theorem registrySpec_cons (table : SubTable) (u : Update) (rest : List Update) :
    registrySpec table (u :: rest) =
      match commandOf u with
      | none => registrySpec table rest
      | some cmd => registrySpec (applyCommand table cmd) rest := by
  unfold registrySpec
  cases h : commandOf u <;> simp [List.filterMap_cons, h]

theorem acksSpec_nil : acksSpec [] = [] := rfl

theorem acksSpec_cons (u : Update) (rest : List Update) :
    acksSpec (u :: rest) =
      match commandOf u with
      | none => acksSpec rest
      | some cmd =>
        (cmd.2, if cmd.1 then subscribedAck else unsubscribedAck) :: acksSpec rest := by
  unfold acksSpec
  cases h : commandOf u <;> simp [List.filterMap_cons, h]

theorem offsetSpec_nil (off : Int) : offsetSpec off [] = off := rfl

theorem offsetSpec_cons (off : Int) (u : Update) (rest : List Update) :
    offsetSpec off (u :: rest) = offsetSpec (u.update_id + 1) rest := by
  cases rest with
  | nil => rfl
  | cons v t =>
    unfold offsetSpec
    rw [List.getLast?_cons_cons]
    cases h : (v :: t).getLast? with
    | none =>
      rw [List.getLast?_eq_none_iff] at h
      cases h
    | some w => rfl

theorem writeCount_cons (u : Update) (rest : List Update) :
    writeCount (u :: rest) =
      match commandOf u with
      | none => writeCount rest
      | some _ => writeCount rest + 1 := by
  unfold writeCount
  cases h : commandOf u <;> simp [List.filterMap_cons, h]

theorem handleLoop_allOk_spec (us : List Update) (table : SubTable)
    (sent : List (Int × RStr)) (writes : Nat) (off : Int) :
    handleLoop allOk us table sent writes off =
      ⟨registrySpec table us, sent ++ acksSpec us, .ok (offsetSpec off us)⟩ := by
  induction us generalizing table sent writes off with
  | nil => simp [handleLoop, registrySpec, acksSpec, offsetSpec]
  | cons u rest ih =>
    rw [offsetSpec_cons, registrySpec_cons, acksSpec_cons]
    cases h : commandOf u with
    | none =>
      rw [handleLoop_cons_none _ _ _ _ _ _ _ h, ih]
    | some cmd =>
      cases cmd with
      | mk b c =>
        cases b
        · rw [handleLoop_cons_unsub _ _ _ _ _ _ _ _ h]
          rw [show allOk writes = true from rfl, if_pos rfl, ih]
          simp [applyCommand]
        · rw [handleLoop_cons_sub _ _ _ _ _ _ _ _ h]
          rw [show allOk writes = true from rfl, if_pos rfl, ih]
          simp [applyCommand]

theorem handleLoop_fail_spec (schedule : Nat → Bool) (pre : List Update) (u : Update)
    (cmd : Bool × Int) (post : List Update) (table : SubTable)
    (sent : List (Int × RStr)) (writes : Nat) (off : Int)
    (hcmd : commandOf u = some cmd)
    (hpre : ∀ k, k < writeCount pre → schedule (writes + k) = true)
    (hfail : schedule (writes + writeCount pre) = false) :
    handleLoop schedule (pre ++ u :: post) table sent writes off =
      ⟨registrySpec table pre, sent ++ acksSpec pre, .error ()⟩ := by
  induction pre generalizing table sent writes off with
  | nil =>
    simp only [List.nil_append, registrySpec_nil, acksSpec_nil, List.append_nil]
    have h0 : schedule writes = false := by
      simpa [writeCount] using hfail
    cases cmd with
    | mk b c =>
      cases b
      · rw [handleLoop_cons_unsub _ _ _ _ _ _ _ _ hcmd, if_neg (by simp [h0])]
      · rw [handleLoop_cons_sub _ _ _ _ _ _ _ _ hcmd, if_neg (by simp [h0])]
  | cons v pre ih =>
    rw [List.cons_append, registrySpec_cons, acksSpec_cons]
    cases hv : commandOf v with
    | none =>
      rw [handleLoop_cons_none _ _ _ _ _ _ _ hv]
      have hwc : writeCount (v :: pre) = writeCount pre := by
        rw [writeCount_cons, hv]
      rw [hwc] at hpre hfail
      exact ih _ _ _ _ hpre hfail
    | some vcmd =>
      have hwc : writeCount (v :: pre) = writeCount pre + 1 := by
        rw [writeCount_cons, hv]
      rw [hwc] at hpre hfail
      have hw : schedule writes = true := by
        have := hpre 0 (by omega)
        simpa using this
      have hpre2 : ∀ k, k < writeCount pre → schedule (writes + 1 + k) = true := by
        intro k hk
        have := hpre (k + 1) (by omega)
        rwa [show writes + (k + 1) = writes + 1 + k by omega] at this
      have hfail2 : schedule (writes + 1 + writeCount pre) = false := by
        rwa [show writes + (writeCount pre + 1) = writes + 1 + writeCount pre by omega]
          at hfail
      cases vcmd with
      | mk vb vc =>
        cases vb
        · rw [handleLoop_cons_unsub _ _ _ _ _ _ _ _ hv, if_pos hw]
          rw [ih _ _ _ _ hpre2 hfail2]
          simp [applyCommand]
        · rw [handleLoop_cons_sub _ _ _ _ _ _ _ _ hv, if_pos hw]
          rw [ih _ _ _ _ hpre2 hfail2]
          simp [applyCommand]

theorem handleLoop_offset_mono (schedule : Nat → Bool) (us : List Update)
    (table : SubTable) (sent : List (Int × RStr)) (writes : Nat) (off off0 n : Int)
    (hall : ∀ u ∈ us, off0 ≤ u.update_id) (hoff : off0 ≤ off)
    (hres : (handleLoop schedule us table sent writes off).result = .ok n) :
    off0 ≤ n := by
  induction us generalizing table sent writes off with
  | nil =>
    simp only [handleLoop] at hres
    cases hres
    exact hoff
  | cons u rest ih =>
    have hu : off0 ≤ u.update_id := hall u (by simp)
    have hrest : ∀ v ∈ rest, off0 ≤ v.update_id := fun v hv => hall v (by simp [hv])
    cases h : commandOf u with
    | none =>
      rw [handleLoop_cons_none _ _ _ _ _ _ _ h] at hres
      exact ih _ _ _ _ hrest (by omega) hres
    | some cmd =>
      cases cmd with
      | mk b c =>
        cases b
        · rw [handleLoop_cons_unsub _ _ _ _ _ _ _ _ h] at hres
          by_cases hw : schedule writes = true
          · rw [if_pos hw] at hres
            exact ih _ _ _ _ hrest (by omega) hres
          · rw [if_neg hw] at hres
            cases hres
        · rw [handleLoop_cons_sub _ _ _ _ _ _ _ _ h] at hres
          by_cases hw : schedule writes = true
          · rw [if_pos hw] at hres
            exact ih _ _ _ _ hrest (by omega) hres
          · rw [if_neg hw] at hres
            cases hres

theorem chatCycle_lastRedditId (schedule : Nat → Bool)
    (fetch : Except Unit (List Update)) (st : LoopState) :
    (chatCycle schedule fetch st).1.lastRedditId = st.lastRedditId := by
  unfold chatCycle
  cases h : (handle_requests schedule fetch st.table st.offset).result <;> simp [h]

theorem feedCycle_offset (keywords : List RStr)
    (fetch : Except Unit (List SubmissionData)) (st : LoopState) :
    (feedCycle keywords fetch st).1.offset = st.offset := by
  cases fetch <;> rfl

theorem feedCycle_settings (keywords : List RStr)
    (fetch : Except Unit (List SubmissionData)) (st : LoopState) :
    (feedCycle keywords fetch st).1.settings = st.settings := by
  cases fetch <;> rfl

theorem bytesToNat_foldl_init (l : List Nat) (init : Nat) :
    l.foldl (fun a b => a * 256 + b) init =
      init * 256 ^ l.length + l.foldl (fun a b => a * 256 + b) 0 := by
  induction l generalizing init with
  | nil => simp
  | cons x t ih =>
    simp only [List.foldl_cons, List.length_cons]
    rw [ih (init * 256 + x), ih (0 * 256 + x)]
    ring

theorem bytesToNat_cons (x : Nat) (l : List Nat) :
    bytesToNat (x :: l) = x * 256 ^ l.length + bytesToNat l := by
  unfold bytesToNat
  simp only [List.foldl_cons]
  rw [bytesToNat_foldl_init l (0 * 256 + x)]
  ring

theorem bytesToNat_lt (l : List Nat) (h : ∀ x ∈ l, x < 256) :
    bytesToNat l < 256 ^ l.length := by
  induction l with
  | nil => simp [bytesToNat]
  | cons x t ih =>
    rw [bytesToNat_cons]
    have hx : x < 256 := h x (by simp)
    have ht : bytesToNat t < 256 ^ t.length := ih fun y hy => h y (by simp [hy])
    have h1 : x * 256 ^ t.length ≤ 255 * 256 ^ t.length :=
      Nat.mul_le_mul_right _ (by omega)
    have h2 : (256 : Nat) ^ (x :: t).length = 256 * 256 ^ t.length := by
      simp [List.length_cons, pow_succ]
      ring
    rw [h2]
    omega

theorem chatCycle_offset_mono (schedule : Nat → Bool)
    (fetch : Except Unit (List Update)) (st : LoopState)
    (hchat : ∀ us, fetch = .ok us → ∀ u ∈ us, st.offset ≤ u.update_id) :
    st.offset ≤ (chatCycle schedule fetch st).1.offset := by
  cases hr : (handle_requests schedule fetch st.table st.offset).result with
  | error e => simp [chatCycle, hr]
  | ok n =>
    have hle : st.offset ≤ n := by
      cases hf : fetch with
      | error e =>
        rw [hf] at hr
        simp only [handle_requests] at hr
        cases hr
        exact le_refl _
      | ok us =>
        rw [hf] at hr
        simp only [handle_requests] at hr
        exact handleLoop_offset_mono schedule us st.table [] 0 st.offset st.offset n
          (hchat us hf) (le_refl _) hr
    simp only [chatCycle, hr]
    exact hle

theorem feedCycle_marker_mono (keywords : List RStr)
    (fetch : Except Unit (List SubmissionData)) (st : LoopState) (m : List Nat)
    (hm : st.lastRedditId = some m)
    (hfeed : ∀ batch, fetch = .ok batch →
      ∃ s ∈ batch, ∃ d, base36decode s.id = some d ∧ bytesCmp m d ≠ .gt) :
    ∃ m2, (feedCycle keywords fetch st).1.lastRedditId = some m2 ∧
      bytesCmp m m2 ≠ .gt := by
  cases hf : fetch with
  | error e =>
    refine ⟨m, ?_, by simp [bytesCmp_refl]⟩
    simp [feedCycle, hm]
  | ok batch =>
    obtain ⟨s, hs, d, hd, hmd⟩ := hfeed batch hf
    have hdmem : d ∈ batch.filterMap fun s => base36decode s.id :=
      List.mem_filterMap.mpr ⟨s, hs, hd⟩
    have hne : (batch.filterMap fun s => base36decode s.id) ≠ [] :=
      List.ne_nil_of_mem hdmem
    obtain ⟨mx, hmx, _, hall⟩ := listMax_spec _ hne
    refine ⟨mx, ?_, bytesCmp_le_trans hmd (hall d hdmem)⟩
    simp [feedCycle, pollCycle, hmx]

/-! ## Claim theorems -/

/-- C1: the claim states that after a successful poll the new dedup
marker equals the maximum id of the fetched batch, and equals the prior
marker M unchanged when the batch is empty. The code instead overwrites
`last_reddit_id` with `batch.max()`, which is `None` for an empty
batch: at prior marker `[5]` and empty batch, the marker is cleared to
`none` rather than kept at `some [5]`. -/
theorem c1_empty_batch_clears_marker :
    (pollCycle (some [5]) kwWts []).newMarker = none ∧
      (pollCycle (some [5]) kwWts []).newMarker ≠ some [5] := by decide

/-- C2 counterexample: one fully successful loop cycle (empty chat
batch, feed batch with id "5") leaves the in-memory dedup marker at
`some [5]`, but the persistence store records nothing about it: a
restart (`startupMarker`) yields `none`, not the pre-restart marker.
Only the offset cursor is persisted. -/
theorem c2_counterexample_marker_not_persisted :
    (loopCycle allOk (.ok []) kwWts (.ok [subWts5]) stEmpty).1.lastRedditId = some [5] ∧
    startupMarker (loopCycle allOk (.ok []) kwWts (.ok [subWts5]) stEmpty).1.settings
      = none ∧
    startupMarker (loopCycle allOk (.ok []) kwWts (.ok [subWts5]) stEmpty).1.settings ≠
      (loopCycle allOk (.ok []) kwWts (.ok [subWts5]) stEmpty).1.lastRedditId := by
  decide

/-- C2 amended: after every successful chat cycle the offset cursor is
rewritten to the store under key "offset" and startup reads it back as
the resume point; the feed dedup marker is never persisted — startup
always begins with marker `none` regardless of the store contents. -/
theorem c2_amended_offset_persists_marker_does_not (schedule : Nat → Bool)
    (fetch : Except Unit (List Update)) (st : LoopState) (n : Int)
    (hres : (handle_requests schedule fetch st.table st.offset).result = .ok n) :
    dbGet (chatCycle schedule fetch st).1.settings offsetKey zeroDflt = intToRStr n ∧
    startupOffset (chatCycle schedule fetch st).1.settings = some n ∧
    (chatCycle schedule fetch st).1.offset = n ∧
    startupMarker (chatCycle schedule fetch st).1.settings = none := by
  have h1 : (chatCycle schedule fetch st).1 =
      { settings := dbSet st.settings offsetKey (intToRStr n)
        table := (handle_requests schedule fetch st.table st.offset).table
        offset := n
        lastRedditId := st.lastRedditId } := by
    simp [chatCycle, hres]
  rw [h1]
  refine ⟨dbGet_dbSet _ _ _ _, ?_, rfl, rfl⟩
  show startupOffset (dbSet st.settings offsetKey (intToRStr n)) = some n
  unfold startupOffset
  rw [dbGet_dbSet]
  exact parseI64_intToRStr n

/-- C2 amended witness: the concrete subscribe scenario at offset 10. -/
theorem c2_amended_witness :
    dbGet (chatCycle allOk (.ok [u42]) stOff10).1.settings offsetKey zeroDflt =
      intToRStr 11 ∧
    startupOffset (chatCycle allOk (.ok [u42]) stOff10).1.settings = some 11 ∧
    (chatCycle allOk (.ok [u42]) stOff10).1.offset = 11 ∧
    startupMarker (chatCycle allOk (.ok [u42]) stOff10).1.settings = none :=
  c2_amended_offset_persists_marker_does_not allOk (.ok [u42]) stOff10 11 (by decide)

/-- C3 counterexample: the dedup marker is not non-decreasing — a
successful feed cycle whose batch maximum decodes below the current
marker overwrites the marker with the smaller value (`[9]` becomes
`[5]`). -/
theorem c3_counterexample_marker_decreases :
    stMarker9.lastRedditId = some [9] ∧
    (feedCycle kwWts (.ok [subWts5]) stMarker9).1.lastRedditId = some [5] ∧
    bytesCmp [5] [9] = Ordering.lt := by decide

/-- C3 amended: across one loop cycle the chat offset is non-decreasing
(given the fetched updates respect the offset contract, update ids ≥
current offset); the dedup marker is non-decreasing only under the
extra hypothesis that a successfully fetched batch contains some item
whose decoded id is at least the current marker. -/
theorem c3_amended_monotonicity (schedule : Nat → Bool)
    (chatFetch : Except Unit (List Update)) (keywords : List RStr)
    (feedFetch : Except Unit (List SubmissionData)) (st : LoopState)
    (hchat : ∀ us, chatFetch = .ok us → ∀ u ∈ us, st.offset ≤ u.update_id)
    (hfeed : ∀ batch, feedFetch = .ok batch → ∀ m, st.lastRedditId = some m →
      ∃ s ∈ batch, ∃ d, base36decode s.id = some d ∧ bytesCmp m d ≠ .gt) :
    st.offset ≤ (loopCycle schedule chatFetch keywords feedFetch st).1.offset ∧
    ∀ m, st.lastRedditId = some m →
      ∃ m2, (loopCycle schedule chatFetch keywords feedFetch st).1.lastRedditId =
          some m2 ∧ bytesCmp m m2 ≠ .gt := by
  have hL : (loopCycle schedule chatFetch keywords feedFetch st).1 =
      (feedCycle keywords feedFetch (chatCycle schedule chatFetch st).1).1 := rfl
  constructor
  · rw [hL, feedCycle_offset]
    exact chatCycle_offset_mono schedule chatFetch st hchat
  · intro m hm
    rw [hL]
    apply feedCycle_marker_mono
    · rw [chatCycle_lastRedditId]
      exact hm
    · intro batch hb
      exact hfeed batch hb m hm

/-- C3 amended witness: offset 10 with one subscribe update, marker
`[3]` with a batch containing id "5". -/
theorem c3_amended_witness :
    stM3.offset ≤ (loopCycle allOk (.ok [u42]) kwWts (.ok [subWts5]) stM3).1.offset ∧
    ∀ m, stM3.lastRedditId = some m →
      ∃ m2, (loopCycle allOk (.ok [u42]) kwWts (.ok [subWts5]) stM3).1.lastRedditId =
          some m2 ∧ bytesCmp m m2 ≠ .gt :=
  c3_amended_monotonicity allOk (.ok [u42]) kwWts (.ok [subWts5]) stM3
    (by
      rintro us hus u hu
      injection hus with h
      subst h
      simp only [List.mem_singleton] at hu
      subst hu
      decide)
    (by
      rintro batch hb m hm
      injection hb with h
      subst h
      have hm3 : m = [3] := by
        have : some ([3] : List Nat) = some m := hm
        exact (Option.some.inj this).symm
      subst hm3
      exact ⟨subWts5, by simp, [5], by decide, by decide⟩)

/-- C4: every emitted item of a successful poll cycle comes from the
fetched batch, has a decoded id strictly greater (in the code's byte
ordering) than the prior marker whenever one is present (all items are
candidates when it is absent), and matches some case-folded keyword as
a substring of the case-folded title or body. -/
theorem c4_emitted_subset (lastId : Option (List Nat)) (keywords : List RStr)
    (batch : List SubmissionData) (s : SubmissionData)
    (hs : s ∈ (pollCycle lastId keywords batch).emitted) :
    s ∈ batch ∧
    (∀ m, lastId = some m →
      bytesCmp ((base36decode s.id).getD []) m = Ordering.gt) ∧
    keywordMatchSpec keywords s = true := by
  have hs2 : s ∈ batch.filter (feedFilter lastId keywords) := hs
  have hmf := List.mem_filter.mp hs2
  refine ⟨hmf.1, ?_, ?_⟩
  · intro m hm
    have hf := hmf.2
    rw [hm] at hf
    simp only [feedFilter, Bool.and_eq_true] at hf
    have h1 := hf.1
    cases hcmp : bytesCmp ((base36decode s.id).getD []) m with
    | gt => rfl
    | lt => rw [hcmp] at h1; exact absurd h1 (by decide)
    | eq => rw [hcmp] at h1; exact absurd h1 (by decide)
  · have hf := hmf.2
    simp only [feedFilter, Bool.and_eq_true] at hf
    rw [← sub_matches_eq_spec]
    exact hf.2

/-- C4 witness: the spec scenario — no marker, batch with ids "3"
(matching) and "5" (not matching), keyword "wts". -/
theorem c4_witness :
    subWts3 ∈ (pollCycle none kwWts [subWts3, subRandom5]).emitted ∧
    (subWts3 ∈ [subWts3, subRandom5] ∧
      (∀ m, (none : Option (List Nat)) = some m →
        bytesCmp ((base36decode subWts3.id).getD []) m = Ordering.gt) ∧
      keywordMatchSpec kwWts subWts3 = true) :=
  ⟨by decide, c4_emitted_subset none kwWts [subWts3, subRandom5] subWts3 (by decide)⟩

/-- C5: on a successfully fetched batch with all registry writes
succeeding, `handle_requests` processes the updates in batch order:
the final registry equals the subscribe/unsubscribe commands applied in
order (other texts ignored), exactly one fixed acknowledgement is sent
per command to that command's chat id, and the returned offset is the
last update id + 1 (the input offset for an empty batch). -/
theorem c5_handle_requests_spec (updates : List Update) (table : SubTable)
    (offset : Int) :
    handle_requests allOk (.ok updates) table offset =
      ⟨registrySpec table updates, acksSpec updates, .ok (offsetSpec offset updates)⟩ := by
  have h2 : handle_requests allOk (.ok updates) table offset =
      handleLoop allOk updates table [] 0 offset := rfl
  rw [h2, handleLoop_allOk_spec]
  simp

/-- C6: adding an already-present chat id succeeds and leaves the
observable registry (the set of rows) unchanged; removing an absent
chat id succeeds, leaves the table unchanged row-for-row, and raises no
error. -/
theorem c6_set_semantics (table : SubTable) (c : Int) :
    (c ∈ get_subscribers table →
      add_subscriber true table c = .ok (table ++ [c]) ∧
      get_subscribers (table ++ [c]) = get_subscribers table) ∧
    (c ∉ get_subscribers table → remove_subscriber true table c = .ok table) := by
  constructor
  · intro hc
    refine ⟨rfl, ?_⟩
    unfold get_subscribers at hc ⊢
    rw [List.toFinset_append]
    have h1 : List.toFinset [c] = {c} := by simp
    rw [h1]
    exact Finset.union_eq_left.mpr (Finset.singleton_subset_iff.mpr hc)
  · intro hc
    have hfil : table.filter (fun x => x != c) = table := by
      apply List.filter_eq_self.mpr
      intro a ha
      simp only [bne_iff_ne, ne_eq]
      intro e
      subst e
      exact hc (List.mem_toFinset.mpr ha)
    show Except.ok (table.filter fun x => x != c) = Except.ok table
    rw [hfil]

/-- C6 witness: duplicate subscribe of 42; unsubscribe of 42 from an
empty table. -/
theorem c6_witness :
    (add_subscriber true [42] 42 = .ok ([42] ++ [42]) ∧
      get_subscribers ([42] ++ [42]) = get_subscribers [42]) ∧
    remove_subscriber true [] 42 = .ok [] :=
  ⟨(c6_set_semantics [42] 42).1 (by decide), (c6_set_semantics [] 42).2 (by decide)⟩

/-- C7 counterexample: the code's dedup comparison is lexicographic on
the decoded byte sequences, not unsigned big-endian integer comparison:
id "100" decodes to `[5, 16]` (value 1296) and id "z" to `[35]` (value
35); the integer order puts "100" above "z", but the code's comparison
puts it below, so a matching item with id "100" is dropped when the
marker is decode("z"). -/
theorem c7_counterexample :
    bytesCmp ((base36decode ("100".toList)).getD [])
        ((base36decode ("z".toList)).getD []) = Ordering.lt ∧
    bytesToNat ((base36decode ("z".toList)).getD []) <
      bytesToNat ((base36decode ("100".toList)).getD []) ∧
    feedFilter (base36decode ("z".toList)) kwWts subWts100 = false ∧
    sub_matches subWts100 kwWts = true := by decide

/-- C7 amended: the dedup comparison is lexicographic on the
base36-decoded byte sequences (Rust `Vec<u8>` ordering); it agrees with
unsigned big-endian integer comparison exactly when the two decoded
sequences have equal length. -/
theorem c7_amended_equal_length (a b : List Nat) (ha : ∀ x ∈ a, x < 256)
    (hb : ∀ x ∈ b, x < 256) (hlen : a.length = b.length) :
    (bytesCmp a b = Ordering.gt ↔ bytesToNat b < bytesToNat a) := by
  induction a generalizing b with
  | nil =>
    cases b with
    | nil => simp [bytesCmp, bytesToNat]
    | cons y ys => simp at hlen
  | cons x xs ih =>
    cases b with
    | nil => simp at hlen
    | cons y ys =>
      have hlen2 : xs.length = ys.length := by simpa using hlen
      have hx : x < 256 := ha x (by simp)
      have hy : y < 256 := hb y (by simp)
      have hxs : ∀ z ∈ xs, z < 256 := fun z hz => ha z (by simp [hz])
      have hys : ∀ z ∈ ys, z < 256 := fun z hz => hb z (by simp [hz])
      have hbx : bytesToNat xs < 256 ^ ys.length := hlen2 ▸ bytesToNat_lt xs hxs
      have hby : bytesToNat ys < 256 ^ ys.length := bytesToNat_lt ys hys
      rw [bytesToNat_cons, bytesToNat_cons, hlen2]
      simp only [bytesCmp]
      rcases Nat.lt_trichotomy x y with h | h | h
      · rw [if_pos h]
        constructor
        · intro he
          cases he
        · intro hnum
          have hlt : x * 256 ^ ys.length + bytesToNat xs <
              y * 256 ^ ys.length + bytesToNat ys :=
            calc x * 256 ^ ys.length + bytesToNat xs
                < x * 256 ^ ys.length + 256 ^ ys.length := Nat.add_lt_add_left hbx _
              _ = (x + 1) * 256 ^ ys.length := by ring
              _ ≤ y * 256 ^ ys.length := Nat.mul_le_mul_right _ (by omega)
              _ ≤ y * 256 ^ ys.length + bytesToNat ys := Nat.le_add_right _ _
          exact absurd hnum (Nat.lt_asymm hlt)
      · subst h
        rw [if_neg (by omega), if_neg (by omega)]
        rw [ih ys hxs hys hlen2]
        exact (add_lt_add_iff_left _).symm
      · rw [if_neg (by omega), if_pos h]
        constructor
        · intro _
          calc y * 256 ^ ys.length + bytesToNat ys
              < y * 256 ^ ys.length + 256 ^ ys.length := Nat.add_lt_add_left hby _
            _ = (y + 1) * 256 ^ ys.length := by ring
            _ ≤ x * 256 ^ ys.length := Nat.mul_le_mul_right _ (by omega)
            _ ≤ x * 256 ^ ys.length + bytesToNat xs := Nat.le_add_right _ _
        · intro _
          rfl

/-- C7 amended witness: equal-length sequences `[5, 16]` and `[0, 35]`. -/
theorem c7_amended_witness :
    bytesCmp [5, 16] [0, 35] = Ordering.gt ↔ bytesToNat [0, 35] < bytesToNat [5, 16] :=
  c7_amended_equal_length [5, 16] [0, 35] (by decide) (by decide) (by decide)

/-- C8: when the feed fetch fails, the cycle is skipped entirely: the
feed half returns the state unchanged with no sends, the dedup marker
after the full loop cycle equals the marker before it, and the cycle
emits no fan-out messages. -/
theorem c8_feed_fetch_failure_skips_cycle (schedule : Nat → Bool)
    (chatFetch : Except Unit (List Update)) (keywords : List RStr) (st : LoopState) :
    feedCycle keywords (.error ()) st = (st, []) ∧
    (loopCycle schedule chatFetch keywords (.error ()) st).1.lastRedditId =
      st.lastRedditId ∧
    (loopCycle schedule chatFetch keywords (.error ()) st).2.2 = [] := by
  refine ⟨rfl, ?_, rfl⟩
  show (feedCycle keywords (.error ())
    (chatCycle schedule chatFetch st).1).1.lastRedditId = st.lastRedditId
  rw [show feedCycle keywords (.error ()) (chatCycle schedule chatFetch st).1 =
    ((chatCycle schedule chatFetch st).1, []) from rfl]
  exact chatCycle_lastRedditId schedule chatFetch st

/-- C9: when the chat update fetch fails, `handle_requests` returns the
input offset as a success (never an error), with no registry change and
no sends. -/
theorem c9_chat_fetch_failure_returns_offset (schedule : Nat → Bool)
    (table : SubTable) (offset : Int) :
    handle_requests schedule (.error ()) table offset = ⟨table, [], .ok offset⟩ := rfl

/-- C10: if the registry write of a command fails mid-batch (all earlier
writes succeeding), `handle_requests` aborts with an error having
applied exactly the commands before the failing one (with their
acknowledgements) and never reaching the later messages; the main loop
then leaves the offset unchanged in memory and unpersisted, so the next
fetch re-reads the whole batch from the same offset. -/
theorem c10_registry_write_failure_aborts_batch (schedule : Nat → Bool)
    (pre post : List Update) (u : Update) (cmd : Bool × Int) (st : LoopState)
    (hcmd : commandOf u = some cmd)
    (hpre : ∀ k, k < writeCount pre → schedule k = true)
    (hfail : schedule (writeCount pre) = false) :
    handle_requests schedule (.ok (pre ++ u :: post)) st.table st.offset =
      ⟨registrySpec st.table pre, acksSpec pre, .error ()⟩ ∧
    (chatCycle schedule (.ok (pre ++ u :: post)) st).1.offset = st.offset ∧
    (chatCycle schedule (.ok (pre ++ u :: post)) st).1.settings = st.settings ∧
    (chatCycle schedule (.ok (pre ++ u :: post)) st).1.table =
      registrySpec st.table pre := by
  have h := handleLoop_fail_spec schedule pre u cmd post st.table [] 0 st.offset hcmd
    (by simpa using hpre) (by simpa using hfail)
  have h1 : handle_requests schedule (.ok (pre ++ u :: post)) st.table st.offset =
      ⟨registrySpec st.table pre, acksSpec pre, .error ()⟩ := by
    have h2 : handle_requests schedule (.ok (pre ++ u :: post)) st.table st.offset =
        handleLoop schedule (pre ++ u :: post) st.table [] 0 st.offset := rfl
    rw [h2, h]
    simp
  refine ⟨h1, ?_, ?_, ?_⟩ <;> simp [chatCycle, h1]

/-- C10 witness: two subscribe updates; the first write succeeds, the
second fails. -/
theorem c10_witness :
    handle_requests schedFail1 (.ok ([u42] ++ u43 :: [])) stOff10.table stOff10.offset =
      ⟨registrySpec stOff10.table [u42], acksSpec [u42], .error ()⟩ ∧
    (chatCycle schedFail1 (.ok ([u42] ++ u43 :: [])) stOff10).1.offset =
      stOff10.offset ∧
    (chatCycle schedFail1 (.ok ([u42] ++ u43 :: [])) stOff10).1.settings =
      stOff10.settings ∧
    (chatCycle schedFail1 (.ok ([u42] ++ u43 :: [])) stOff10).1.table =
      registrySpec stOff10.table [u42] :=
  c10_registry_write_failure_aborts_batch schedFail1 [u42] [] u43 (true, 43) stOff10
    (by decide)
    (by
      intro k hk
      have h1 : writeCount [u42] = 1 := by decide
      rw [h1] at hk
      have h0 : k = 0 := by omega
      subst h0
      decide)
    (by decide)

end Dit
